import Mathlib

/-!
Shallow embedding of the mathcount_trainer browser extension.

The content script (the instrumented page observer) is embedded as pure
functions over an explicit DOM model plus a step relation on the script's
mutable state; the background service worker's durable queue is embedded
as functions over a list-valued queue and a small state machine for the
flush-in-flight flag.
-/

namespace MCT

/-! ## DOM model

A document is modelled by the data the content script actually reads from
it: the elements matching the problem-text selector (in document order),
the elements matching the result-icon selector, the values of the
answer-input elements, the first `data-problem-id` attribute value, and
the document's own URL (present in a real document, read by nobody in
this code — relevant to claim C10). -/

structure Elem where
  textContent : Option String
deriving DecidableEq

structure Doc where
  url : String
  probTextElems : List Elem
  resultSpans : List Elem
  inputs : List String
  dataProblemId : Option String
deriving DecidableEq

/-- Accessing `frame.contentDocument` either yields a document, yields
`null`, or throws a cross-origin violation. -/
inductive FrameAccess where
  | ok (d : Doc)
  | nullDoc
  | crossOrigin
deriving DecidableEq

/-- The page as the content script sees it: `window.location.href`, the
parsed query parameters of that URL (`new URL(href).searchParams`),
`document.title`, the top document and the iframes of the top document. -/
structure Page where
  href : String
  title : String
  locParams : List (String × String)
  topDoc : Doc
  frames : List FrameAccess
deriving DecidableEq

/-! ## Text utilities

`normalizeText = (text) => text.replace(/\s+/g, ' ').trim()` and the
JS `String.prototype.trim` used on input values and span contents. -/

/-- The JavaScript `\s` character class (also the class trimmed by
`String.prototype.trim`). -/
def jsWs (c : Char) : Bool :=
  c = ' ' || c = '\t' || c = '\n' || c = '\r' || c.toNat = 11 || c.toNat = 12 ||
  c.toNat = 160 || c.toNat = 0x1680 || (0x2000 ≤ c.toNat && c.toNat ≤ 0x200A) ||
  c.toNat = 0x2028 || c.toNat = 0x2029 || c.toNat = 0x202F || c.toNat = 0x205F ||
  c.toNat = 0x3000 || c.toNat = 0xFEFF

/-- `replace(/\s+/g, ' ')`: each maximal run of whitespace becomes one
space.  The boolean argument records whether the previous character was
part of a whitespace run already emitted as a space. -/
def collapseAux : Bool → List Char → List Char
  | _, [] => []
  | prevWs, c :: rest =>
    if jsWs c then
      if prevWs then collapseAux true rest
      else ' ' :: collapseAux true rest
    else c :: collapseAux false rest

def collapseWs (l : List Char) : List Char := collapseAux false l

/-- Strip a trailing whitespace run. -/
def trimRight : List Char → List Char
  | [] => []
  | c :: rest =>
    match trimRight rest with
    | [] => if jsWs c then [] else [c]
    | d :: r => c :: d :: r

/-- JS `String.prototype.trim` on a character list. -/
def trimWs (l : List Char) : List Char := trimRight (l.dropWhile jsWs)

/-- `const normalizeText = (text) => text.replace(/\s+/g, ' ').trim()` -/
def normalizeText (s : String) : String := ⟨trimWs (collapseWs s.data)⟩

/-- JS `s.trim()`. -/
def trimString (s : String) : String := ⟨trimWs s.data⟩

/-! ## Constants of the content script -/

def MAX_TEXT_LENGTH : Nat := 2000
def RESULT_TIMEOUT_MS : Nat := 12000
def RESULT_SCAN_DELAY_MS : Nat := 250
def MAX_RECENT_LOGS : Nat := 50

/-! ## Extractors and the result detector -/

/-- `safeAccessFrameDocument`: `try { return frame.contentDocument }
catch { return null }` — a cross-origin violation is swallowed and
yields `null`, as does a `null` `contentDocument`. -/
def safeAccessFrameDocument : FrameAccess → Option Doc
  | .ok d => some d
  | .nullDoc => none
  | .crossOrigin => none

/-- `Set.add` on an insertion-ordered document set. -/
def setInsertDoc (l : List Doc) (d : Doc) : List Doc :=
  if d ∈ l then l else l ++ [d]

/-- `getAllCandidateDocuments`: a set seeded with the top document, then
every iframe document reachable through `safeAccessFrameDocument`. -/
def getAllCandidateDocuments (pg : Page) : List Doc :=
  (pg.frames.filterMap safeAccessFrameDocument).foldl setInsertDoc [pg.topDoc]

/-- `getProblemDocument`: the top document if it has a problem-text
element, else the first accessible iframe document that has one. -/
def getProblemDocument (pg : Page) : Option Doc :=
  if pg.topDoc.probTextElems.isEmpty then
    pg.frames.findSome? (fun f =>
      match safeAccessFrameDocument f with
      | some fd => if fd.probTextElems.isEmpty then none else some fd
      | none => none)
  else some pg.topDoc

/-- `getProblemText`: first problem-text element's text content,
normalized; `''` when the element or its text is missing/falsy; absent
unless the normalized text is non-empty, then sliced to
`MAX_TEXT_LENGTH`. -/
def getProblemText : Option Doc → Option String
  | none => none
  | some d =>
    let text :=
      match d.probTextElems.head? with
      | some e =>
        match e.textContent with
        | some t => if t = "" then "" else normalizeText t
        | none => ""
      | none => ""
    if text.data.length > 0 then some ⟨text.data.take MAX_TEXT_LENGTH⟩ else none

/-- `url.searchParams.get(key)` over the parsed query-parameter list. -/
def searchParamGet (params : List (String × String)) (key : String) : Option String :=
  (params.find? (fun kv => kv.1 == key)).map (·.2)

/-- JS `a ?? b` on optional values. -/
def orD {α : Type} : Option α → Option α → Option α
  | some v, _ => some v
  | none, b => b

/-- `getProblemId`: query parameter `problem_id`, else `problem`, from
`new URL(window.location.href)`; else the document's first
`data-problem-id` attribute. -/
def getProblemId (pg : Page) (doc : Option Doc) : Option String :=
  orD (searchParamGet pg.locParams "problem_id")
    (orD (searchParamGet pg.locParams "problem") (doc.bind Doc.dataProblemId))

/-- `getUserAnswer`: first answer input whose trimmed value is
non-empty. -/
def getUserAnswer : Option Doc → Option String
  | none => none
  | some d =>
    d.inputs.findSome? (fun v =>
      let value := trimString v
      if value.data.length > 0 then some value else none)

inductive ResultState where
  | correct
  | wrong
deriving DecidableEq

/-- Classification of one result-icon span: trimmed text `"J"` is the
wrong marker, `"q"` the correct marker. -/
def markerOf (span : Elem) : Option ResultState :=
  match span.textContent with
  | some t =>
    let value := trimString t
    if value = "J" then some ResultState.wrong
    else if value = "q" then some ResultState.correct
    else none
  | none => none

/-- `getResultState`: first marker match in document-then-element order
over the candidate documents; `null` when nothing matches. -/
def getResultState (pg : Page) : Option ResultState :=
  (getAllCandidateDocuments pg).findSome? (fun d => d.resultSpans.findSome? markerOf)

/-! ## Payloads and the dedup gate -/

structure PendingSubmission where
  problemText : Option String
  problemId : Option String
  userAnswer : Option String
  submittedAt : String
deriving DecidableEq

structure ProblemLogPayload where
  url : String
  pageTitle : String
  problemText : Option String
  problemId : Option String
  userAnswer : Option String
  correctAnswer : Option String
  resultText : String
  capturedAt : String
deriving DecidableEq

/-- `buildPayload`: snapshot fields first, fresh DOM reads (`??`) as
fallback. -/
def buildPayload (pg : Page) (pending : PendingSubmission) : ProblemLogPayload :=
  let problemDoc := getProblemDocument pg
  { url := pg.href
    pageTitle := pg.title
    problemText := orD pending.problemText (getProblemText problemDoc)
    problemId := orD pending.problemId (getProblemId pg problemDoc)
    userAnswer := orD pending.userAnswer (getUserAnswer problemDoc)
    correctAnswer := none
    resultText := "incorrect (J)"
    capturedAt := pending.submittedAt }

/-- The dedup signature: `JSON.stringify` of exactly these four payload
fields (injective on them), modelled as the record itself. -/
structure Signature where
  url : String
  problemText : Option String
  userAnswer : Option String
  resultText : String
deriving DecidableEq

def mkSignature (p : ProblemLogPayload) : Signature :=
  { url := p.url, problemText := p.problemText
    userAnswer := p.userAnswer, resultText := p.resultText }

/-- `shouldLog` over the insertion-ordered signature set (head =
oldest): present → `false`, untouched; absent → append, evict the
oldest when the size exceeds `MAX_RECENT_LOGS`, return `true`. -/
def shouldLog (sigs : List Signature) (payload : ProblemLogPayload) :
    Bool × List Signature :=
  let signature := mkSignature payload
  if signature ∈ sigs then (false, sigs)
  else
    let inserted := sigs ++ [signature]
    if inserted.length > MAX_RECENT_LOGS then (true, inserted.tail)
    else (true, inserted)

/-! ## The content-script state machine

The mutable slots `pendingSubmission`, `scanTimeout`, `pendingTimeout`
and `recentSignatures` become fields of an explicit state.  Besides the
boolean armed-flags (the timer-id variables being set), the state counts
the timers actually outstanding in the browser (`setTimeout` armed and
neither fired nor cancelled), and keeps audit traces: every payload
built, every payload handed to the dedup gate, and every payload sent. -/

structure CS where
  pending : Option PendingSubmission
  scanArmed : Bool
  expiryArmed : Bool
  scanTimers : Nat
  expiryTimers : Nat
  recent : List Signature
  built : List ProblemLogPayload
  gated : List ProblemLogPayload
  sent : List ProblemLogPayload
deriving DecidableEq

/-- `clearPending`: null the pending slot; cancel the expiry timer when
its id is set. -/
def clearPending (s : CS) : CS :=
  let s := { s with pending := none }
  if s.expiryArmed then
    { s with expiryTimers := s.expiryTimers - 1, expiryArmed := false }
  else s

/-- `startPendingTimeout`: cancel any armed expiry timer, then arm a
fresh one. -/
def startPendingTimeout (s : CS) : CS :=
  let s :=
    if s.expiryArmed then { s with expiryTimers := s.expiryTimers - 1 } else s
  { s with expiryTimers := s.expiryTimers + 1, expiryArmed := true }

/-- `scheduleResultScan`: arm a scan timer only when a submission is
pending and no scan timer is already armed. -/
def scheduleResultScan (s : CS) : CS :=
  if s.pending.isNone || s.scanArmed then s
  else { s with scanArmed := true, scanTimers := s.scanTimers + 1 }

/-- `checkForResult` against the page state `pg` at scan time.  The
branch order mirrors the source: bail without a pending submission,
bail on no result, clear the pending slot and its timer, and only on
the wrong marker build one payload, gate it, and send when the gate
allows. -/
def checkForResult (pg : Page) (s : CS) : CS :=
  match s.pending with
  | none => s
  | some pending =>
    match getResultState pg with
    | none => s
    | some result =>
      let s := clearPending s
      match result with
      | .correct => s
      | .wrong =>
        let payload := buildPayload pg pending
        let s := { s with
          built := s.built ++ [payload]
          gated := s.gated ++ [payload] }
        let g := shouldLog s.recent payload
        let s := { s with recent := g.2 }
        if g.1 then { s with sent := s.sent ++ [payload] } else s

/-- The snapshot `handleSubmitClick` stores. -/
def snapshotOf (pg : Page) (now : String) : PendingSubmission :=
  let problemDoc := getProblemDocument pg
  { problemText := getProblemText problemDoc
    problemId := getProblemId pg problemDoc
    userAnswer := getUserAnswer problemDoc
    submittedAt := now }

/-- `handleSubmitClick`: overwrite the pending slot with a fresh
snapshot, restart the expiry timer, schedule a scan. -/
def handleSubmitClick (pg : Page) (now : String) (s : CS) : CS :=
  scheduleResultScan (startPendingTimeout { s with pending := some (snapshotOf pg now) })

/-- The events the browser delivers to the content script.  Pages are
carried on the events that read the DOM, so the DOM may change freely
between events.  A timer-fire event is a no-op unless such a timer is
actually outstanding. -/
inductive Event where
  | submitClick (pg : Page) (now : String)
  | mutation
  | scanFires (pg : Page)
  | expiryFires
deriving DecidableEq

/-- One event-loop callback.  When a timer fires, the browser consumes
it: the outstanding count drops and the id variable is reset before the
callback body runs (a later `clearTimeout` on the fired id is a no-op,
which the accounting reflects by resetting the armed flag up front). -/
def step (s : CS) (e : Event) : CS :=
  match e with
  | .submitClick pg now => handleSubmitClick pg now s
  | .mutation => scheduleResultScan s
  | .scanFires pg =>
    if s.scanTimers = 0 then s
    else checkForResult pg { s with scanTimers := s.scanTimers - 1, scanArmed := false }
  | .expiryFires =>
    if s.expiryTimers = 0 then s
    else clearPending { s with expiryTimers := s.expiryTimers - 1, expiryArmed := false }

def CS.init : CS :=
  { pending := none, scanArmed := false, expiryArmed := false
    scanTimers := 0, expiryTimers := 0
    recent := [], built := [], gated := [], sent := [] }

def run (s : CS) (es : List Event) : CS := es.foldl step s

/-- Timer-accounting invariant: the number of outstanding timers of
each kind is exactly what the corresponding id variable says — armed
means one, unarmed means zero. -/
def Inv (s : CS) : Prop :=
  s.scanTimers = (if s.scanArmed then 1 else 0) ∧
  s.expiryTimers = (if s.expiryArmed then 1 else 0)

instance (s : CS) : Decidable (Inv s) := by
  unfold Inv; infer_instance

/-- Events that observe no result: a DOM mutation notification, or a
scan that finds no marker. -/
def NonResult : Event → Prop
  | .mutation => True
  | .scanFires pg => getResultState pg = none
  | _ => False

/-! ## The background worker's durable queue -/

def MAX_QUEUE_SIZE : Nat := 200

/-- `while (queue.length > MAX_QUEUE_SIZE) queue.shift()`. -/
def shiftWhile : List ProblemLogPayload → List ProblemLogPayload
  | [] => []
  | p :: rest =>
    if rest.length + 1 > MAX_QUEUE_SIZE then shiftWhile rest else p :: rest

/-- `enqueueProblemLog`: push, then drop oldest entries past the
capacity. -/
def enqueueProblemLog (q : List ProblemLogPayload) (p : ProblemLogPayload) :
    List ProblemLogPayload :=
  shiftWhile (q ++ [p])

/-- The body of `flushQueuedLogs`: write each queued payload in order,
keeping the failed ones (in order) as the new queue.  `ok p` models
whether the remote write of `p` succeeds. -/
def flushBody (ok : ProblemLogPayload → Bool) :
    List ProblemLogPayload → List ProblemLogPayload
  | [] => []
  | p :: rest =>
    if ok p then flushBody ok rest else p :: flushBody ok rest

/-- Background state: the durable queue, the `flushInFlight` promise
slot (as a flag), and a count of flush bodies ever started. -/
structure BG where
  queue : List ProblemLogPayload
  inFlight : Bool
  flushesStarted : Nat
deriving DecidableEq

/-- `flushQueuedLogs` request: an in-flight flush is awaited, not
duplicated; otherwise a flush body starts and runs over the queue. -/
def bgFlushRequest (ok : ProblemLogPayload → Bool) (s : BG) : BG :=
  if s.inFlight then s
  else { queue := flushBody ok s.queue, inFlight := true
         flushesStarted := s.flushesStarted + 1 }

/-- The in-flight promise resolves. -/
def bgFlushComplete (s : BG) : BG := { s with inFlight := false }

/-- The `LOG_WRONG_PROBLEM` branch of the message listener: no current
user → enqueue; write succeeds → queue untouched; write fails →
enqueue. -/
def handleLogMessage (authed : Bool) (writeOk : Bool)
    (q : List ProblemLogPayload) (p : ProblemLogPayload) : List ProblemLogPayload :=
  if authed then
    if writeOk then q else enqueueProblemLog q p
  else enqueueProblemLog q p

/-! ## Specification-side predicates and fixtures -/

/-- Every whitespace character is a plain space. -/
def spaceOnlyWs (l : List Char) : Bool := l.all (fun c => !jsWs c || c = ' ')

/-- No two adjacent whitespace characters (whitespace runs have length
one). -/
def noAdjWs : List Char → Bool
  | [] => true
  | [_] => true
  | a :: b :: r => (!(jsWs a && jsWs b)) && noAdjWs (b :: r)

/-- The first character, if any, is not whitespace. -/
def headNotWs : List Char → Bool
  | [] => true
  | c :: _ => !jsWs c

/-- The last character, if any, is not whitespace. -/
def lastNotWs : List Char → Bool
  | [] => true
  | [c] => !jsWs c
  | _ :: c :: r => lastNotWs (c :: r)

/-- Fold a sequence of payloads through the dedup gate, keeping the
signature set. -/
def processAll (sigs : List Signature) (ps : List ProblemLogPayload) : List Signature :=
  ps.foldl (fun s q => (shouldLog s q).2) sigs

/-- A problem document fixture. -/
def sampleDoc : Doc :=
  { url := "https://frames.example/p", probTextElems := [⟨some "  What is  2+2? "⟩]
    resultSpans := [], inputs := ["", " 5 "], dataProblemId := some "p1" }

/-- A page with a problem but no result marker. -/
def quietPage : Page :=
  { href := "https://site.example/mathcounts_trainer?x=1", title := "Trainer"
    locParams := [("x", "1")], topDoc := sampleDoc, frames := [] }

/-- The same page after the wrong-marker span appeared. -/
def wrongPage : Page :=
  { quietPage with topDoc := { sampleDoc with resultSpans := [⟨some " J "⟩] } }

/-- The same page after the correct-marker span appeared. -/
def okPage : Page :=
  { quietPage with topDoc := { sampleDoc with resultSpans := [⟨some "q"⟩] } }

/-- A concrete payload fixture. -/
def samplePayload : ProblemLogPayload :=
  buildPayload wrongPage (snapshotOf quietPage "2026-01-01T00:00:00.000Z")

/-- A payload with a different dedup signature than `samplePayload`. -/
def otherPayload : ProblemLogPayload :=
  { samplePayload with url := "https://site.example/mathcounts_trainer?x=2" }

/-! ## Lemmas about whitespace normalization -/

theorem spaceOnly_collapseAux (b : Bool) (l : List Char) :
    spaceOnlyWs (collapseAux b l) = true := by
  induction l generalizing b with
  | nil => rfl
  | cons c rest ih =>
    unfold collapseAux
    by_cases h : jsWs c
    · cases b <;> simp [h, spaceOnlyWs, List.all_cons] <;>
        simpa [spaceOnlyWs] using ih true
    · simp [h, spaceOnlyWs, List.all_cons]
      simpa [spaceOnlyWs] using ih false

theorem headNotWs_collapseAux_true (l : List Char) :
    headNotWs (collapseAux true l) = true := by
  induction l with
  | nil => rfl
  | cons c rest ih =>
    unfold collapseAux
    by_cases h : jsWs c
    · simpa [h] using ih
    · simp [h, headNotWs]

theorem noAdjWs_cons (c : Char) (l : List Char) (h : noAdjWs (c :: l) = true) :
    noAdjWs l = true := by
  cases l with
  | nil => rfl
  | cons d r =>
    simp [noAdjWs] at h
    exact h.2

theorem noAdjWs_cons_of (c : Char) (l : List Char)
    (hl : noAdjWs l = true)
    (hc : headNotWs l = true ∨ jsWs c = false) :
    noAdjWs (c :: l) = true := by
  cases l with
  | nil => rfl
  | cons d r =>
    have hd : jsWs c = false ∨ jsWs d = false := by
      rcases hc with h | h
      · right
        simpa [headNotWs] using h
      · left
        exact h
    simp [noAdjWs, hl]
    exact hd

theorem noAdjWs_collapseAux (b : Bool) (l : List Char) :
    noAdjWs (collapseAux b l) = true := by
  induction l generalizing b with
  | nil => rfl
  | cons c rest ih =>
    unfold collapseAux
    by_cases h : jsWs c
    · cases b
      · simp [h]
        exact noAdjWs_cons_of _ _ (ih true) (Or.inl (headNotWs_collapseAux_true rest))
      · simpa [h] using ih true
    · simp [h]
      exact noAdjWs_cons_of _ _ (ih false) (Or.inr (by simpa using h))

theorem all_dropWhile (P q : Char → Bool) (l : List Char)
    (h : l.all P = true) : (l.dropWhile q).all P = true := by
  induction l with
  | nil => rfl
  | cons c rest ih =>
    rw [List.all_cons, Bool.and_eq_true] at h
    rw [List.dropWhile_cons]
    split
    · exact ih h.2
    · rw [List.all_cons, Bool.and_eq_true]
      exact ⟨h.1, h.2⟩

theorem headNotWs_dropWhile (l : List Char) :
    headNotWs (l.dropWhile jsWs) = true := by
  induction l with
  | nil => rfl
  | cons c rest ih =>
    rw [List.dropWhile_cons]
    split
    · exact ih
    · simp_all [headNotWs]

theorem noAdjWs_dropWhile (q : Char → Bool) (l : List Char)
    (h : noAdjWs l = true) : noAdjWs (l.dropWhile q) = true := by
  induction l with
  | nil => rfl
  | cons c rest ih =>
    rw [List.dropWhile_cons]
    split
    · exact ih (noAdjWs_cons c rest h)
    · exact h

theorem trimRight_cons_shape (x : Char) (xs : List Char) :
    trimRight (x :: xs) = [] ∨ ∃ r, trimRight (x :: xs) = x :: r := by
  unfold trimRight
  cases h : trimRight xs with
  | nil =>
    by_cases hx : jsWs x
    · exact Or.inl (by simp [hx])
    · exact Or.inr ⟨[], by simp [hx]⟩
  | cons d r => exact Or.inr ⟨d :: r, rfl⟩

theorem all_trimRight (P : Char → Bool) (l : List Char)
    (h : l.all P = true) : (trimRight l).all P = true := by
  induction l with
  | nil => rfl
  | cons c rest ih =>
    rw [List.all_cons, Bool.and_eq_true] at h
    unfold trimRight
    cases hr : trimRight rest with
    | nil =>
      by_cases hx : jsWs c <;> simp [hx, List.all_cons, h.1]
    | cons d r =>
      have h2 := ih h.2
      rw [hr] at h2
      rw [List.all_cons, Bool.and_eq_true]
      exact ⟨h.1, h2⟩

theorem noAdjWs_trimRight (l : List Char)
    (h : noAdjWs l = true) : noAdjWs (trimRight l) = true := by
  induction l with
  | nil => rfl
  | cons c rest ih =>
    have hrest := ih (noAdjWs_cons c rest h)
    unfold trimRight
    cases hr : trimRight rest with
    | nil =>
      by_cases hx : jsWs c <;> simp [hx, noAdjWs]
    | cons d r =>
      rw [hr] at hrest
      have hhead : ∃ rest2, rest = d :: rest2 := by
        cases rest with
        | nil => simp [trimRight] at hr
        | cons e rest2 =>
          rcases trimRight_cons_shape e rest2 with hsh | ⟨r2, hsh⟩
          · rw [hsh] at hr
            simp at hr
          · rw [hsh] at hr
            injection hr with h1 h2
            exact ⟨rest2, by rw [h1]⟩
      obtain ⟨rest2, hrest2⟩ := hhead
      have hpair : jsWs c = false ∨ jsWs d = false := by
        rw [hrest2] at h
        simp [noAdjWs] at h
        exact h.1
      simp [noAdjWs, hrest]
      exact hpair

theorem headNotWs_trimRight (l : List Char)
    (h : headNotWs l = true) : headNotWs (trimRight l) = true := by
  cases l with
  | nil => rfl
  | cons x xs =>
    rcases trimRight_cons_shape x xs with hsh | ⟨r, hsh⟩
    · simp [hsh, headNotWs]
    · rw [hsh]
      simpa [headNotWs] using h

theorem lastNotWs_trimRight (l : List Char) :
    lastNotWs (trimRight l) = true := by
  induction l with
  | nil => rfl
  | cons c rest ih =>
    unfold trimRight
    cases hr : trimRight rest with
    | nil =>
      by_cases hx : jsWs c <;> simp [hx, lastNotWs]
    | cons d r =>
      rw [hr] at ih
      simpa [lastNotWs] using ih

theorem spaceOnly_trimWs (l : List Char) (h : spaceOnlyWs l = true) :
    spaceOnlyWs (trimWs l) = true :=
  all_trimRight _ _ (all_dropWhile _ _ _ h)

theorem noAdjWs_trimWs (l : List Char) (h : noAdjWs l = true) :
    noAdjWs (trimWs l) = true :=
  noAdjWs_trimRight _ (noAdjWs_dropWhile _ _ h)

theorem normalizeText_props (s : String) :
    spaceOnlyWs (normalizeText s).data = true
    ∧ noAdjWs (normalizeText s).data = true
    ∧ headNotWs (normalizeText s).data = true
    ∧ lastNotWs (normalizeText s).data = true := by
  have hdata : (normalizeText s).data = trimWs (collapseWs s.data) := rfl
  refine ⟨?_, ?_, ?_, ?_⟩
  · rw [hdata]
    exact spaceOnly_trimWs _ (spaceOnly_collapseAux false s.data)
  · rw [hdata]
    exact noAdjWs_trimWs _ (noAdjWs_collapseAux false s.data)
  · rw [hdata]
    exact headNotWs_trimRight _ (headNotWs_dropWhile _)
  · rw [hdata]
    exact lastNotWs_trimRight _

/-- Claim C7: problem-text extraction takes the first element matching
the problem-text selector, collapses every whitespace run to a single
space, trims both ends, truncates to at most 2000 characters, returns
absent when no element matches or the normalized text is empty, and the
returned value's length never exceeds 2000. -/
theorem claim_c7 (s : String) (d : Doc) (t : String) :
    getProblemText none = none
    ∧ (d.probTextElems.head? = none → getProblemText (some d) = none)
    ∧ (∀ e, d.probTextElems.head? = some e →
        normalizeText (e.textContent.getD "") = "" → getProblemText (some d) = none)
    ∧ (∀ e raw, d.probTextElems.head? = some e → e.textContent = some raw →
        normalizeText raw ≠ "" →
        getProblemText (some d) = some ⟨(normalizeText raw).data.take MAX_TEXT_LENGTH⟩)
    ∧ (getProblemText (some d) = some t → t.data.length ≤ MAX_TEXT_LENGTH)
    ∧ spaceOnlyWs (normalizeText s).data = true
    ∧ noAdjWs (normalizeText s).data = true
    ∧ headNotWs (normalizeText s).data = true
    ∧ lastNotWs (normalizeText s).data = true := by
  obtain ⟨hs1, hs2, hs3, hs4⟩ := normalizeText_props s
  refine ⟨rfl, ?_, ?_, ?_, ?_, hs1, hs2, hs3, hs4⟩
  · intro h
    simp [getProblemText, h]
  · intro e he hn
    cases hc : e.textContent with
    | none => simp [getProblemText, he, hc]
    | some tc =>
      rw [hc] at hn
      simp at hn
      by_cases htc : tc = ""
      · simp [getProblemText, he, hc, htc]
      · simp [getProblemText, he, hc, htc, hn]
  · intro e raw he hc hn
    have hraw : raw ≠ "" := by
      intro hr
      exact hn (by rw [hr]; rfl)
    have hne : (normalizeText raw).data ≠ [] := by
      intro hd
      exact hn (String.ext hd)
    have hpos : (normalizeText raw).data.length > 0 := List.length_pos.mpr hne
    simp only [getProblemText, he, hc, if_neg hraw]
    rw [if_pos hpos]
  · intro h
    simp only [getProblemText] at h
    split at h
    · rw [Option.some.injEq] at h
      subst h
      simp
    · exact absurd h (by simp)

/-- Witness for C7 at a concrete document. -/
theorem claim_c7_witness :
    getProblemText (some sampleDoc) = some "What is 2+2?"
    ∧ normalizeText "  What is  2+2? " = "What is 2+2?"
    ∧ getProblemText (some { sampleDoc with probTextElems := [⟨some "   "⟩] }) = none := by
  have h := claim_c7 "  What is  2+2? " { sampleDoc with probTextElems := [⟨some "   "⟩] } ""
  refine ⟨by decide, by decide, ?_⟩
  exact h.2.2.1 ⟨some "   "⟩ (by decide) (by decide)

/-! ## Lemmas about the result detector -/

theorem findSome?_flatten {α β γ : Type} (l : List α) (g : α → List β)
    (f : β → Option γ) :
    (l.flatMap g).findSome? f = l.findSome? (fun a => (g a).findSome? f) := by
  induction l with
  | nil => rfl
  | cons a l ih =>
    rw [List.flatMap_cons, List.findSome?_append, ih]
    cases h : (g a).findSome? f <;>
      simp [List.findSome?_cons, h, Option.or]

theorem mem_setInsertDoc (l : List Doc) (x d : Doc) :
    d ∈ setInsertDoc l x ↔ d ∈ l ∨ d = x := by
  unfold setInsertDoc
  by_cases h : x ∈ l <;> simp [h]
  intro hd
  rw [hd]
  exact h

theorem mem_foldl_setInsert (l : List Doc) (acc : List Doc) (d : Doc) :
    d ∈ l.foldl setInsertDoc acc ↔ d ∈ acc ∨ d ∈ l := by
  induction l generalizing acc with
  | nil => simp
  | cons x l ih =>
    rw [List.foldl_cons, ih, mem_setInsertDoc]
    simp [or_assoc]

/-- Claim C2: the result detector scans the top document plus every
iframe document accessible without a cross-origin violation (violations
are swallowed, the frame skipped), inspects result-icon elements in
document-then-element order, maps trimmed text `"J"` to wrong and
`"q"` to correct, returns null when nothing matches, and the first
matching element in scan order decides. -/
theorem claim_c2 (pg : Page) :
    getResultState pg
        = ((getAllCandidateDocuments pg).flatMap Doc.resultSpans).findSome? markerOf
    ∧ (getResultState pg = none ↔
        ∀ e ∈ (getAllCandidateDocuments pg).flatMap Doc.resultSpans, markerOf e = none)
    ∧ (∀ d, d ∈ getAllCandidateDocuments pg ↔
        d = pg.topDoc ∨ ∃ f ∈ pg.frames, safeAccessFrameDocument f = some d)
    ∧ safeAccessFrameDocument FrameAccess.crossOrigin = none
    ∧ (∀ e : Elem, ∀ t, e.textContent = some t →
        (trimString t = "J" → markerOf e = some ResultState.wrong)
        ∧ (trimString t ≠ "J" → trimString t = "q" →
            markerOf e = some ResultState.correct)
        ∧ (trimString t ≠ "J" → trimString t ≠ "q" → markerOf e = none)) := by
  have hmain : getResultState pg
      = ((getAllCandidateDocuments pg).flatMap Doc.resultSpans).findSome? markerOf := by
    rw [getResultState, findSome?_flatten]
  refine ⟨hmain, ?_, ?_, rfl, ?_⟩
  · rw [hmain]
    exact List.findSome?_eq_none_iff
  · intro d
    rw [getAllCandidateDocuments, mem_foldl_setInsert]
    simp [List.mem_filterMap, eq_comm]
  · intro e t ht
    refine ⟨?_, ?_, ?_⟩
    · intro hJ
      simp [markerOf, ht, hJ]
    · intro hJ hq
      simp [markerOf, ht, hJ, hq]
    · intro hJ hq
      simp [markerOf, ht, hJ, hq]

/-- Witness for C2: a page carrying a cross-origin frame, a null frame,
an accessible frame, and markers in two documents, where the first
marker in scan order wins. -/
theorem claim_c2_witness :
    getResultState
      { quietPage with
        topDoc := { sampleDoc with resultSpans := [⟨some "x"⟩, ⟨some " q "⟩] }
        frames := [FrameAccess.crossOrigin, FrameAccess.nullDoc,
          FrameAccess.ok { sampleDoc with url := "f", resultSpans := [⟨some "J"⟩] }] }
      = some ResultState.correct
    ∧ (∀ e ∈ (getAllCandidateDocuments quietPage).flatMap Doc.resultSpans,
        markerOf e = none) := by
  constructor
  · have h := claim_c2
      { quietPage with
        topDoc := { sampleDoc with resultSpans := [⟨some "x"⟩, ⟨some " q "⟩] }
        frames := [FrameAccess.crossOrigin, FrameAccess.nullDoc,
          FrameAccess.ok { sampleDoc with url := "f", resultSpans := [⟨some "J"⟩] }] }
    rw [h.1]
    decide
  · exact (claim_c2 quietPage).2.1.mp (by decide)

/-! ## Lemmas about the dedup gate -/

theorem shouldLog_mem (sigs : List Signature) (p : ProblemLogPayload)
    (h : mkSignature p ∈ sigs) : shouldLog sigs p = (false, sigs) := by
  simp [shouldLog, h]

/-- The signature of a payload that has just been accepted survives any
run of fewer-than-capacity gate calls whose signatures differ from it:
it stays in the set, with the set bounded by the capacity. -/
theorem shouldLog_window (sig : Signature) :
    ∀ (qs : List ProblemLogPayload) (pre post : List Signature),
      post.length + qs.length + 1 ≤ MAX_RECENT_LOGS →
      (pre ++ sig :: post).length ≤ MAX_RECENT_LOGS →
      (∀ q ∈ qs, mkSignature q ≠ sig) →
      ∃ pre' post', processAll (pre ++ sig :: post) qs = pre' ++ sig :: post'
        ∧ (pre' ++ sig :: post').length ≤ MAX_RECENT_LOGS := by
  intro qs
  induction qs with
  | nil =>
    intro pre post h1 h2 h3
    exact ⟨pre, post, rfl, h2⟩
  | cons q qs ih =>
    intro pre post h1 h2 h3
    simp only [List.length_cons, List.length_append, List.length_nil] at h1 h2
    have hne : mkSignature q ≠ sig := h3 q (List.mem_cons_self q qs)
    have hstep : processAll (pre ++ sig :: post) (q :: qs)
        = processAll (shouldLog (pre ++ sig :: post) q).2 qs := rfl
    rw [hstep]
    by_cases hmem : mkSignature q ∈ pre ++ sig :: post
    · rw [shouldLog_mem _ _ hmem]
      refine ih pre post (by omega) (by simp only [List.length_append, List.length_cons, List.length_nil]; omega)
        (fun r hr => h3 r (List.mem_cons_of_mem q hr))
    · have hins : (shouldLog (pre ++ sig :: post) q).2
          = if ((pre ++ sig :: post) ++ [mkSignature q]).length > MAX_RECENT_LOGS
            then ((pre ++ sig :: post) ++ [mkSignature q]).tail
            else (pre ++ sig :: post) ++ [mkSignature q] := by
        simp only [shouldLog, if_neg hmem]
        split <;> rfl
      by_cases hbig : ((pre ++ sig :: post) ++ [mkSignature q]).length > MAX_RECENT_LOGS
      · rw [hins, if_pos hbig]
        simp only [List.length_append, List.length_cons, List.length_nil] at hbig
        cases pre with
        | nil =>
          exfalso
          simp only [List.length_nil] at hbig h2
          omega
        | cons a pre2 =>
          have htail : ((a :: pre2 ++ sig :: post) ++ [mkSignature q]).tail
              = pre2 ++ sig :: (post ++ [mkSignature q]) := by
            simp
          rw [htail]
          simp only [List.length_cons] at hbig h2
          refine ih pre2 (post ++ [mkSignature q])
            (by simp only [List.length_append, List.length_cons, List.length_nil]; omega)
            (by simp only [List.length_append, List.length_cons, List.length_nil]; omega)
            (fun r hr => h3 r (List.mem_cons_of_mem q hr))
      · rw [hins, if_neg hbig]
        simp only [List.length_append, List.length_cons, List.length_nil] at hbig
        have happ : (pre ++ sig :: post) ++ [mkSignature q]
            = pre ++ sig :: (post ++ [mkSignature q]) := by
          simp
        rw [happ]
        refine ih pre (post ++ [mkSignature q])
          (by simp only [List.length_append, List.length_cons, List.length_nil]; omega)
          (by simp only [List.length_append, List.length_cons, List.length_nil]; omega)
          (fun r hr => h3 r (List.mem_cons_of_mem q hr))

/-- Claim C3: `shouldLog` fingerprints the payload by
{url, problemText, userAnswer, resultText}; a present signature yields
`false` with the set untouched; an absent one is appended, the oldest
entry is evicted exactly when the size exceeds the capacity 50, and the
call yields `true`; hence the same signature yields `true` at most once
within a window of fewer than 50 distinct other signatures, and
membership checks never reorder entries. -/
theorem claim_c3 (sigs : List Signature) (p : ProblemLogPayload)
    (qs : List ProblemLogPayload) :
    mkSignature p =
      { url := p.url, problemText := p.problemText
        userAnswer := p.userAnswer, resultText := p.resultText }
    ∧ (mkSignature p ∈ sigs → shouldLog sigs p = (false, sigs))
    ∧ (mkSignature p ∉ sigs → (shouldLog sigs p).1 = true)
    ∧ (mkSignature p ∉ sigs → sigs.length < MAX_RECENT_LOGS →
        (shouldLog sigs p).2 = sigs ++ [mkSignature p])
    ∧ (mkSignature p ∉ sigs → sigs.length = MAX_RECENT_LOGS →
        (shouldLog sigs p).2 = sigs.tail ++ [mkSignature p])
    ∧ (sigs.length ≤ MAX_RECENT_LOGS → (shouldLog sigs p).2.length ≤ MAX_RECENT_LOGS)
    ∧ (sigs.length ≤ MAX_RECENT_LOGS → qs.length < MAX_RECENT_LOGS →
        (∀ q ∈ qs, mkSignature q ≠ mkSignature p) →
        (shouldLog sigs p).1 = true →
        shouldLog (processAll (shouldLog sigs p).2 qs) p
          = (false, processAll (shouldLog sigs p).2 qs)) := by
  have hsnd : ∀ (h : mkSignature p ∉ sigs),
      (shouldLog sigs p).2
        = if (sigs ++ [mkSignature p]).length > MAX_RECENT_LOGS
          then (sigs ++ [mkSignature p]).tail
          else sigs ++ [mkSignature p] := by
    intro h
    simp only [shouldLog, if_neg h]
    split <;> rfl
  refine ⟨rfl, shouldLog_mem sigs p, ?_, ?_, ?_, ?_, ?_⟩
  · intro h
    simp only [shouldLog, if_neg h]
    split <;> rfl
  · intro h hlen
    have hno : ¬ (sigs ++ [mkSignature p]).length > MAX_RECENT_LOGS := by
      simp only [List.length_append, List.length_cons, List.length_nil]
      omega
    rw [hsnd h, if_neg hno]
  · intro h hlen
    have htail : (sigs ++ [mkSignature p]).tail = sigs.tail ++ [mkSignature p] := by
      cases sigs with
      | nil => simp [MAX_RECENT_LOGS] at hlen
      | cons a rest => simp
    have hyes : (sigs ++ [mkSignature p]).length > MAX_RECENT_LOGS := by
      simp only [List.length_append, List.length_cons, List.length_nil]
      omega
    rw [hsnd h, if_pos hyes, htail]
  · intro hlen
    by_cases h : mkSignature p ∈ sigs
    · rw [shouldLog_mem sigs p h]
      exact hlen
    · rw [hsnd h]
      split
      · next hbig =>
        rw [List.length_tail]
        simp only [List.length_append, List.length_cons, List.length_nil] at hbig ⊢
        omega
      · next hbig =>
        simp only [List.length_append, List.length_cons, List.length_nil] at hbig ⊢
        omega
  · intro hlen hqs hdist htrue
    have hnotmem : mkSignature p ∉ sigs := by
      intro h
      rw [shouldLog_mem sigs p h] at htrue
      simp at htrue
    have hshape : ∃ pre post, (shouldLog sigs p).2 = pre ++ mkSignature p :: post
        ∧ post.length + qs.length + 1 ≤ MAX_RECENT_LOGS
        ∧ (pre ++ mkSignature p :: post).length ≤ MAX_RECENT_LOGS := by
      rw [hsnd hnotmem]
      by_cases hbig : (sigs ++ [mkSignature p]).length > MAX_RECENT_LOGS
      · have hpos : sigs ≠ [] := by
          intro hnil
          rw [hnil] at hbig
          simp [MAX_RECENT_LOGS] at hbig
        obtain ⟨a, rest, hrest⟩ := List.exists_cons_of_ne_nil hpos
        refine ⟨sigs.tail, [], ?_,
          by simp only [List.length_nil]; omega, ?_⟩
        · rw [if_pos hbig, hrest]
          simp
        · rw [hrest]
          rw [hrest] at hlen
          simp only [List.length_append, List.length_cons, List.length_nil,
            List.tail_cons] at hlen ⊢
          omega
      · refine ⟨sigs, [], ?_, by simp only [List.length_nil]; omega, ?_⟩
        · rw [if_neg hbig]
        · simp only [List.length_append, List.length_cons, List.length_nil] at hbig ⊢
          omega
    obtain ⟨pre, post, hshape, hb1, hb2⟩ := hshape
    rw [hshape]
    obtain ⟨pre', post', hfinal, hlen'⟩ :=
      shouldLog_window (mkSignature p) qs pre post hb1 hb2 hdist
    rw [hfinal]
    exact shouldLog_mem _ _ (by simp)

/-- Witness for C3: with an empty set the first call accepts, a second
call after one distinct signature rejects. -/
theorem claim_c3_witness :
    shouldLog [] samplePayload = (true, [mkSignature samplePayload])
    ∧ shouldLog (processAll (shouldLog [] samplePayload).2 [otherPayload]) samplePayload
        = (false, processAll (shouldLog [] samplePayload).2 [otherPayload]) := by
  have h := claim_c3 [] samplePayload [otherPayload]
  exact ⟨by decide,
    h.2.2.2.2.2.2 (by decide) (by decide) (by decide) (h.2.2.1 (by decide))⟩

/-- Claim C10: problem-id extraction resolves `problem_id` and then
`problem` against the top-level window's URL only; the candidate
document's own URL is never consulted, and the document argument is
used solely for the `data-problem-id` fallback when both query
parameters are absent. -/
theorem claim_c10 (pg : Page) (d d' : Doc) (od : Option Doc) :
    (∀ v, searchParamGet pg.locParams "problem_id" = some v →
        getProblemId pg od = some v)
    ∧ (searchParamGet pg.locParams "problem_id" = none →
        ∀ v, searchParamGet pg.locParams "problem" = some v →
          getProblemId pg od = some v)
    ∧ (searchParamGet pg.locParams "problem_id" = none →
        searchParamGet pg.locParams "problem" = none →
        getProblemId pg od = od.bind Doc.dataProblemId)
    ∧ (d.dataProblemId = d'.dataProblemId →
        getProblemId pg (some d) = getProblemId pg (some d'))
    ∧ getProblemId pg none
        = orD (searchParamGet pg.locParams "problem_id")
            (searchParamGet pg.locParams "problem") := by
  refine ⟨?_, ?_, ?_, ?_, ?_⟩
  · intro v hv
    simp [getProblemId, hv, orD]
  · intro h v hv
    simp [getProblemId, h, hv, orD]
  · intro h1 h2
    simp [getProblemId, h1, h2, orD]
  · intro hdd
    simp [getProblemId, Option.bind, hdd]
  · simp [getProblemId, Option.bind]
    cases searchParamGet pg.locParams "problem_id" <;>
      cases searchParamGet pg.locParams "problem" <;> simp [orD]

/-- Witness for C10: two documents differing in URL (and everything but
the data attribute) yield the same problem id; with both query
parameters present or absent, the resolution order holds. -/
theorem claim_c10_witness :
    getProblemId { quietPage with locParams := [("problem", "7"), ("problem_id", "3")] }
        (some { sampleDoc with url := "https://a" })
      = getProblemId { quietPage with locParams := [("problem", "7"), ("problem_id", "3")] }
        (some { sampleDoc with url := "https://b", inputs := [], probTextElems := [] })
    ∧ getProblemId { quietPage with locParams := [("problem", "7"), ("problem_id", "3")] }
        (some sampleDoc) = some "3"
    ∧ getProblemId quietPage (some sampleDoc) = some "p1" := by
  refine ⟨?_, ?_, ?_⟩
  · exact (claim_c10 { quietPage with locParams := [("problem", "7"), ("problem_id", "3")] }
      { sampleDoc with url := "https://a" }
      { sampleDoc with url := "https://b", inputs := [], probTextElems := [] }
      (some sampleDoc)).2.2.2.1 rfl
  · exact (claim_c10 { quietPage with locParams := [("problem", "7"), ("problem_id", "3")] }
      sampleDoc sampleDoc (some sampleDoc)).1 "3" (by decide)
  · have h := (claim_c10 quietPage sampleDoc sampleDoc (some sampleDoc)).2.2.1
      (by decide) (by decide)
    rw [h]
    decide

/-! ## Lemmas about the background queue -/

theorem shiftWhile_eq_drop (l : List ProblemLogPayload) :
    shiftWhile l = l.drop (l.length - MAX_QUEUE_SIZE) := by
  induction l with
  | nil => simp [shiftWhile]
  | cons p rest ih =>
    unfold shiftWhile
    by_cases h : rest.length + 1 > MAX_QUEUE_SIZE
    · rw [if_pos h, ih]
      have harith : (p :: rest).length - MAX_QUEUE_SIZE
          = (rest.length - MAX_QUEUE_SIZE) + 1 := by
        simp only [List.length_cons]
        omega
      rw [harith, List.drop_succ_cons]
    · rw [if_neg h]
      have harith : (p :: rest).length - MAX_QUEUE_SIZE = 0 := by
        simp only [List.length_cons]
        omega
      rw [harith, List.drop_zero]

theorem flushBody_eq_filter (ok : ProblemLogPayload → Bool)
    (q : List ProblemLogPayload) :
    flushBody ok q = q.filter (fun x => !(ok x)) := by
  induction q with
  | nil => rfl
  | cons p rest ih =>
    unfold flushBody
    by_cases h : ok p <;> simp [h, List.filter_cons, ih]

/-- Claim C9: an unauthenticated or failed delivery appends the payload
to the durable queue, whose length is kept at most 200 by dropping
oldest entries; a flush rewrites the queue to exactly the failed
entries in their original order (successful writes are removed); and a
flush request arriving while a flush is in flight does not start a
second flush body. -/
theorem claim_c9 (q : List ProblemLogPayload) (p : ProblemLogPayload)
    (ok : ProblemLogPayload → Bool) (s : BG) (authed writeOk : Bool) :
    enqueueProblemLog q p = (q ++ [p]).drop ((q ++ [p]).length - MAX_QUEUE_SIZE)
    ∧ (enqueueProblemLog q p).length ≤ MAX_QUEUE_SIZE
    ∧ (q.length < MAX_QUEUE_SIZE → enqueueProblemLog q p = q ++ [p])
    ∧ (authed = false → handleLogMessage authed writeOk q p = enqueueProblemLog q p)
    ∧ (authed = true → writeOk = false →
        handleLogMessage authed writeOk q p = enqueueProblemLog q p)
    ∧ (authed = true → writeOk = true → handleLogMessage authed writeOk q p = q)
    ∧ flushBody ok q = q.filter (fun x => !(ok x))
    ∧ (flushBody ok q).Sublist q
    ∧ (s.inFlight = true → bgFlushRequest ok s = s)
    ∧ (s.inFlight = false →
        (bgFlushRequest ok s).flushesStarted = s.flushesStarted + 1
        ∧ (bgFlushRequest ok s).queue = flushBody ok s.queue)
    ∧ (bgFlushComplete s).queue = s.queue := by
  refine ⟨shiftWhile_eq_drop (q ++ [p]), ?_, ?_, ?_, ?_, ?_,
    flushBody_eq_filter ok q, ?_, ?_, ?_, rfl⟩
  · unfold enqueueProblemLog
    rw [shiftWhile_eq_drop, List.length_drop]
    simp only [List.length_append, List.length_cons, List.length_nil]
    omega
  · intro hlen
    unfold enqueueProblemLog
    rw [shiftWhile_eq_drop]
    have : (q ++ [p]).length - MAX_QUEUE_SIZE = 0 := by
      simp only [List.length_append, List.length_cons, List.length_nil]
      omega
    rw [this, List.drop_zero]
  · intro h
    simp [handleLogMessage, h]
  · intro h1 h2
    simp [handleLogMessage, h1, h2]
  · intro h1 h2
    simp [handleLogMessage, h1, h2]
  · rw [flushBody_eq_filter]
    exact List.filter_sublist q
  · intro h
    simp [bgFlushRequest, h]
  · intro h
    simp [bgFlushRequest, h]

/-- Witness for C9: a full queue drops its oldest entry, an in-flight
flush request is a no-op, and a fresh flush keeps exactly the failed
writes. -/
theorem claim_c9_witness :
    enqueueProblemLog [samplePayload] otherPayload = [samplePayload, otherPayload]
    ∧ handleLogMessage false true [] samplePayload = [samplePayload]
    ∧ bgFlushRequest (fun _ => true)
        { queue := [samplePayload], inFlight := true, flushesStarted := 1 }
      = { queue := [samplePayload], inFlight := true, flushesStarted := 1 }
    ∧ (bgFlushRequest (fun x => decide (x = samplePayload))
        { queue := [samplePayload, otherPayload], inFlight := false,
          flushesStarted := 0 }).queue = [otherPayload] := by
  have h9 := claim_c9 [samplePayload] otherPayload (fun _ => true)
    { queue := [samplePayload], inFlight := true, flushesStarted := 1 } false true
  refine ⟨?_, ?_, ?_, ?_⟩
  · exact h9.2.2.1 (by decide)
  · exact (claim_c9 [] samplePayload (fun _ => true)
      { queue := [], inFlight := false, flushesStarted := 0 } false true).2.2.2.1 rfl
  · exact h9.2.2.2.2.2.2.2.2.1 rfl
  · have h := (claim_c9 [] samplePayload (fun x => decide (x = samplePayload))
      { queue := [samplePayload, otherPayload], inFlight := false,
        flushesStarted := 0 } false true).2.2.2.2.2.2.2.2.2.1 rfl
    rw [h.2]
    decide


/-! ## Lemmas about the content-script state machine -/

theorem clearPending_eq (s : CS) :
    clearPending s =
      { s with
        pending := none
        expiryArmed := false
        expiryTimers := if s.expiryArmed then s.expiryTimers - 1 else s.expiryTimers } := by
  by_cases he : s.expiryArmed <;> simp [clearPending, he]

theorem checkForResult_none_pending (pg : Page) (s : CS) (hp : s.pending = none) :
    checkForResult pg s = s := by
  unfold checkForResult
  rw [hp]

theorem checkForResult_no_result (pg : Page) (s : CS)
    (hr : getResultState pg = none) : checkForResult pg s = s := by
  unfold checkForResult
  cases hp : s.pending with
  | none => rfl
  | some p => rw [hr]

theorem checkForResult_correct_eq (pg : Page) (s : CS) (p : PendingSubmission)
    (hp : s.pending = some p) (hr : getResultState pg = some ResultState.correct) :
    checkForResult pg s =
      { s with
        pending := none
        expiryArmed := false
        expiryTimers := if s.expiryArmed then s.expiryTimers - 1 else s.expiryTimers } := by
  unfold checkForResult
  rw [hp, hr]
  exact clearPending_eq s

theorem checkForResult_wrong_eq (pg : Page) (s : CS) (p : PendingSubmission)
    (hp : s.pending = some p) (hr : getResultState pg = some ResultState.wrong) :
    checkForResult pg s =
      { pending := none
        scanArmed := s.scanArmed
        expiryArmed := false
        scanTimers := s.scanTimers
        expiryTimers := if s.expiryArmed then s.expiryTimers - 1 else s.expiryTimers
        recent := (shouldLog s.recent (buildPayload pg p)).2
        built := s.built ++ [buildPayload pg p]
        gated := s.gated ++ [buildPayload pg p]
        sent := if (shouldLog s.recent (buildPayload pg p)).1
                then s.sent ++ [buildPayload pg p] else s.sent } := by
  unfold checkForResult
  rw [hp, hr]
  rw [clearPending_eq]
  by_cases hg : (shouldLog s.recent (buildPayload pg p)).1 <;>
    by_cases he : s.expiryArmed <;> simp [hg, he]

theorem step_scanFires_eq (pg : Page) (s : CS) (hs : ¬ s.scanTimers = 0) :
    step s (.scanFires pg)
      = checkForResult pg { s with scanTimers := s.scanTimers - 1, scanArmed := false } := by
  simp [step, hs]

theorem step_expiryFires_eq (s : CS) (hs : ¬ s.expiryTimers = 0) :
    step s .expiryFires
      = clearPending { s with expiryTimers := s.expiryTimers - 1, expiryArmed := false } := by
  simp [step, hs]

theorem handleSubmitClick_eq (pg : Page) (now : String) (s : CS) (hInv : Inv s) :
    step s (.submitClick pg now) =
      { pending := some (snapshotOf pg now)
        scanArmed := true
        expiryArmed := true
        scanTimers := 1
        expiryTimers := 1
        recent := s.recent
        built := s.built
        gated := s.gated
        sent := s.sent } := by
  obtain ⟨hscan, hexp⟩ := hInv
  show handleSubmitClick pg now s = _
  unfold handleSubmitClick startPendingTimeout scheduleResultScan
  by_cases he : s.expiryArmed <;> by_cases hc : s.scanArmed <;>
    simp [he, hc] at hscan hexp ⊢ <;> simp [hscan, hexp]

theorem inv_init : Inv CS.init := by
  constructor <;> rfl

theorem inv_step (s : CS) (e : Event) (hInv : Inv s) : Inv (step s e) := by
  obtain ⟨pend, sA, eA, sT, eT, rec, bu, ga, se⟩ := s
  obtain ⟨hscan, hexp⟩ := hInv
  dsimp only at hscan hexp
  cases e with
  | submitClick pg now =>
    rw [handleSubmitClick_eq pg now _ ⟨hscan, hexp⟩]
    exact ⟨rfl, rfl⟩
  | mutation =>
    show Inv (scheduleResultScan _)
    unfold scheduleResultScan
    split
    · exact ⟨hscan, hexp⟩
    · next hcond =>
      cases sA with
      | true => simp at hcond
      | false =>
        simp at hscan
        exact ⟨by simp [hscan], hexp⟩
  | scanFires pg =>
    by_cases h0 : sT = 0
    · have h : step ⟨pend, sA, eA, sT, eT, rec, bu, ga, se⟩ (Event.scanFires pg)
          = ⟨pend, sA, eA, sT, eT, rec, bu, ga, se⟩ := by
        simp [step, h0]
      rw [h]
      exact ⟨hscan, hexp⟩
    · rw [step_scanFires_eq _ _ h0]
      have hs0 : sT = 1 := by
        cases sA <;> simp at hscan <;> omega
      cases pend with
      | none =>
        rw [checkForResult_none_pending _ _ rfl]
        exact ⟨by simp [hs0], hexp⟩
      | some p =>
        cases hr : getResultState pg with
        | none =>
          rw [checkForResult_no_result _ _ hr]
          exact ⟨by simp [hs0], hexp⟩
        | some res =>
          cases res with
          | correct =>
            rw [checkForResult_correct_eq _ _ p rfl hr]
            refine ⟨by simp [hs0], ?_⟩
            cases eA <;> simp at hexp ⊢ <;> simp [hexp]
          | wrong =>
            rw [checkForResult_wrong_eq _ _ p rfl hr]
            refine ⟨by simp [hs0], ?_⟩
            cases eA <;> simp at hexp ⊢ <;> simp [hexp]
  | expiryFires =>
    by_cases h0 : eT = 0
    · have h : step ⟨pend, sA, eA, sT, eT, rec, bu, ga, se⟩ Event.expiryFires
          = ⟨pend, sA, eA, sT, eT, rec, bu, ga, se⟩ := by
        simp [step, h0]
      rw [h]
      exact ⟨hscan, hexp⟩
    · rw [step_expiryFires_eq _ h0, clearPending_eq]
      refine ⟨hscan, ?_⟩
      cases eA <;> simp at hexp ⊢ <;> omega

theorem inv_run (s : CS) (es : List Event) (hInv : Inv s) : Inv (run s es) := by
  induction es generalizing s with
  | nil => exact hInv
  | cons e es ih => exact ih (step s e) (inv_step s e hInv)

theorem step_nonResult (s : CS) (e : Event) (h : NonResult e) :
    (step s e).pending = s.pending ∧ (step s e).expiryArmed = s.expiryArmed
    ∧ (step s e).expiryTimers = s.expiryTimers ∧ (step s e).recent = s.recent
    ∧ (step s e).built = s.built ∧ (step s e).gated = s.gated
    ∧ (step s e).sent = s.sent := by
  cases e with
  | submitClick pg now => exact h.elim
  | expiryFires => exact h.elim
  | mutation =>
    have hm : step s Event.mutation = scheduleResultScan s := rfl
    rw [hm]
    unfold scheduleResultScan
    split <;> exact ⟨rfl, rfl, rfl, rfl, rfl, rfl, rfl⟩
  | scanFires pg =>
    have hr : getResultState pg = none := h
    by_cases h0 : s.scanTimers = 0
    · have hstep : step s (Event.scanFires pg) = s := by simp [step, h0]
      rw [hstep]
      exact ⟨rfl, rfl, rfl, rfl, rfl, rfl, rfl⟩
    · rw [step_scanFires_eq pg s h0, checkForResult_no_result _ _ hr]
      exact ⟨rfl, rfl, rfl, rfl, rfl, rfl, rfl⟩

theorem run_nonResult (s : CS) (es : List Event) (h : ∀ e ∈ es, NonResult e) :
    (run s es).pending = s.pending ∧ (run s es).expiryArmed = s.expiryArmed
    ∧ (run s es).expiryTimers = s.expiryTimers ∧ (run s es).recent = s.recent
    ∧ (run s es).built = s.built ∧ (run s es).gated = s.gated
    ∧ (run s es).sent = s.sent := by
  induction es generalizing s with
  | nil => exact ⟨rfl, rfl, rfl, rfl, rfl, rfl, rfl⟩
  | cons e es ih =>
    have h1 := step_nonResult s e (h e (List.mem_cons_self e es))
    have h2 := ih (step s e) (fun x hx => h x (List.mem_cons_of_mem e hx))
    show (run (step s e) es).pending = s.pending ∧ _
    obtain ⟨a1, a2, a3, a4, a5, a6, a7⟩ := h1
    obtain ⟨b1, b2, b3, b4, b5, b6, b7⟩ := h2
    exact ⟨b1.trans a1, b2.trans a2, b3.trans a3, b4.trans a4,
      b5.trans a5, b6.trans a6, b7.trans a7⟩

/-- Claim C1: a submit-click followed (after any number of
result-free mutations and scans) by a scan observing the wrong outcome
while the submission is pending builds exactly one payload and hands
exactly that payload to the dedup gate once; the payload prefers the
snapshot fields and falls back to a fresh DOM read only for absent
snapshot fields; the pending submission and its expiry timer are
cleared; and the payload is sent exactly when the gate allows. -/
theorem claim_c1 (s : CS) (pg0 pgW : Page) (now : String) (es : List Event)
    (hInv : Inv s) (hes : ∀ e ∈ es, NonResult e)
    (hW : getResultState pgW = some ResultState.wrong)
    (hScan : (run (step s (.submitClick pg0 now)) es).scanArmed = true) :
    (step (run (step s (.submitClick pg0 now)) es) (.scanFires pgW)).built
        = s.built ++ [buildPayload pgW (snapshotOf pg0 now)]
    ∧ (step (run (step s (.submitClick pg0 now)) es) (.scanFires pgW)).gated
        = s.gated ++ [buildPayload pgW (snapshotOf pg0 now)]
    ∧ (step (run (step s (.submitClick pg0 now)) es) (.scanFires pgW)).pending = none
    ∧ (step (run (step s (.submitClick pg0 now)) es) (.scanFires pgW)).expiryArmed = false
    ∧ (step (run (step s (.submitClick pg0 now)) es) (.scanFires pgW)).expiryTimers = 0
    ∧ (step (run (step s (.submitClick pg0 now)) es) (.scanFires pgW)).sent
        = (if (shouldLog s.recent (buildPayload pgW (snapshotOf pg0 now))).1
           then s.sent ++ [buildPayload pgW (snapshotOf pg0 now)] else s.sent)
    ∧ (∀ t, (snapshotOf pg0 now).problemText = some t →
        (buildPayload pgW (snapshotOf pg0 now)).problemText = some t)
    ∧ ((snapshotOf pg0 now).problemText = none →
        (buildPayload pgW (snapshotOf pg0 now)).problemText
          = getProblemText (getProblemDocument pgW))
    ∧ (∀ t, (snapshotOf pg0 now).problemId = some t →
        (buildPayload pgW (snapshotOf pg0 now)).problemId = some t)
    ∧ ((snapshotOf pg0 now).problemId = none →
        (buildPayload pgW (snapshotOf pg0 now)).problemId
          = getProblemId pgW (getProblemDocument pgW))
    ∧ (∀ t, (snapshotOf pg0 now).userAnswer = some t →
        (buildPayload pgW (snapshotOf pg0 now)).userAnswer = some t)
    ∧ ((snapshotOf pg0 now).userAnswer = none →
        (buildPayload pgW (snapshotOf pg0 now)).userAnswer
          = getUserAnswer (getProblemDocument pgW)) := by
  have hsub := handleSubmitClick_eq pg0 now s hInv
  rw [hsub] at hScan ⊢
  set R : CS :=
    { pending := some (snapshotOf pg0 now)
      scanArmed := true
      expiryArmed := true
      scanTimers := 1
      expiryTimers := 1
      recent := s.recent
      built := s.built
      gated := s.gated
      sent := s.sent } with hRdef
  have hR : Inv R := ⟨rfl, rfl⟩
  have hrunInv := inv_run R es hR
  obtain ⟨hp1, hp2, hp3, hp4, hp5, hp6, hp7⟩ := run_nonResult R es hes
  have hpend : (run R es).pending = some (snapshotOf pg0 now) := hp1
  have hea : (run R es).expiryArmed = true := hp2
  have het : (run R es).expiryTimers = 1 := hp3
  have hrec : (run R es).recent = s.recent := hp4
  have hbu : (run R es).built = s.built := hp5
  have hga : (run R es).gated = s.gated := hp6
  have hse : (run R es).sent = s.sent := hp7
  have hScanT : (run R es).scanTimers = 1 := by
    have h := hrunInv.1
    rw [hScan] at h
    simpa using h
  have hne : ¬ (run R es).scanTimers = 0 := by
    rw [hScanT]
    exact one_ne_zero
  rw [step_scanFires_eq _ _ hne]
  rcases hrun : run R es with ⟨p2, sA2, eA2, sT2, eT2, rec2, bu2, ga2, se2⟩
  rw [hrun] at hpend hea het hrec hbu hga hse hScanT
  dsimp only at hpend hea het hrec hbu hga hse hScanT
  subst hpend hea het hrec hbu hga hse hScanT
  rw [checkForResult_wrong_eq pgW _ (snapshotOf pg0 now) rfl hW]
  refine ⟨rfl, rfl, rfl, rfl, rfl, rfl, ?_, ?_, ?_, ?_, ?_, ?_⟩
  · intro t ht
    show orD (snapshotOf pg0 now).problemText _ = some t
    rw [ht]
    rfl
  · intro ht
    show orD (snapshotOf pg0 now).problemText _ = _
    rw [ht]
    rfl
  · intro t ht
    show orD (snapshotOf pg0 now).problemId _ = some t
    rw [ht]
    rfl
  · intro ht
    show orD (snapshotOf pg0 now).problemId _ = _
    rw [ht]
    rfl
  · intro t ht
    show orD (snapshotOf pg0 now).userAnswer _ = some t
    rw [ht]
    rfl
  · intro ht
    show orD (snapshotOf pg0 now).userAnswer _ = _
    rw [ht]
    rfl

/-- Witness for C1: from the initial state, submit then a wrong-marker
scan yields exactly one built payload and one gated payload, with the
pending slot and expiry timer cleared. -/
theorem claim_c1_witness :
    (step (run (step CS.init (.submitClick quietPage "t0")) []) (.scanFires wrongPage)).built
      = CS.init.built ++ [buildPayload wrongPage (snapshotOf quietPage "t0")]
    ∧ (step (run (step CS.init (.submitClick quietPage "t0")) []) (.scanFires wrongPage)).gated
      = CS.init.gated ++ [buildPayload wrongPage (snapshotOf quietPage "t0")]
    ∧ (step (run (step CS.init (.submitClick quietPage "t0")) []) (.scanFires wrongPage)).pending
      = none := by
  have h := claim_c1 CS.init quietPage wrongPage "t0" [] inv_init (by simp)
    (by decide) (by decide)
  exact ⟨h.1, h.2.1, h.2.2.1⟩

/-- Claim C4: a scan observing the correct outcome while a submission
is pending clears the pending submission and its expiry timer, returns
to idle, and builds and sends nothing. -/
theorem claim_c4 (s : CS) (pg : Page) (p : PendingSubmission)
    (hInv : Inv s) (hp : s.pending = some p) (hs : ¬ s.scanTimers = 0)
    (hC : getResultState pg = some ResultState.correct) :
    (step s (.scanFires pg)).pending = none
    ∧ (step s (.scanFires pg)).expiryArmed = false
    ∧ (step s (.scanFires pg)).expiryTimers = 0
    ∧ (step s (.scanFires pg)).built = s.built
    ∧ (step s (.scanFires pg)).gated = s.gated
    ∧ (step s (.scanFires pg)).sent = s.sent := by
  obtain ⟨pend, sA, eA, sT, eT, rec, bu, ga, se⟩ := s
  obtain ⟨hscan, hexp⟩ := hInv
  dsimp only at hscan hexp hp hs
  subst hp
  rw [step_scanFires_eq pg ⟨some p, sA, eA, sT, eT, rec, bu, ga, se⟩ hs]
  rw [checkForResult_correct_eq pg ⟨some p, false, eA, sT - 1, eT, rec, bu, ga, se⟩ p rfl hC]
  refine ⟨rfl, rfl, ?_, rfl, rfl, rfl⟩
  cases eA <;> simp at hexp ⊢ <;> simp [hexp]

/-- Witness for C4: submit then a correct-marker scan sends nothing and
returns to idle. -/
theorem claim_c4_witness :
    (step (step CS.init (.submitClick quietPage "t0")) (.scanFires okPage)).pending = none
    ∧ (step (step CS.init (.submitClick quietPage "t0")) (.scanFires okPage)).sent
      = (step CS.init (.submitClick quietPage "t0")).sent
    ∧ (step (step CS.init (.submitClick quietPage "t0")) (.scanFires okPage)).built
      = (step CS.init (.submitClick quietPage "t0")).built := by
  have h := claim_c4 (step CS.init (.submitClick quietPage "t0")) okPage
    (snapshotOf quietPage "t0") (by decide) (by decide) (by decide) (by decide)
  exact ⟨h.1, h.2.2.2.2.2, h.2.2.2.1⟩

/-- Claim C5: after a submit-click followed only by result-free events,
the expiry timer fires, the pending submission is cleared, the state
returns to idle, and no payload was built, gated or sent. -/
theorem claim_c5 (s : CS) (pg0 : Page) (now : String) (es : List Event)
    (hInv : Inv s) (hes : ∀ e ∈ es, NonResult e) :
    (step (run (step s (.submitClick pg0 now)) es) .expiryFires).pending = none
    ∧ (step (run (step s (.submitClick pg0 now)) es) .expiryFires).expiryArmed = false
    ∧ (step (run (step s (.submitClick pg0 now)) es) .expiryFires).expiryTimers = 0
    ∧ (step (run (step s (.submitClick pg0 now)) es) .expiryFires).built = s.built
    ∧ (step (run (step s (.submitClick pg0 now)) es) .expiryFires).gated = s.gated
    ∧ (step (run (step s (.submitClick pg0 now)) es) .expiryFires).sent = s.sent := by
  have hsub := handleSubmitClick_eq pg0 now s hInv
  rw [hsub]
  set R : CS :=
    { pending := some (snapshotOf pg0 now)
      scanArmed := true
      expiryArmed := true
      scanTimers := 1
      expiryTimers := 1
      recent := s.recent
      built := s.built
      gated := s.gated
      sent := s.sent } with hRdef
  obtain ⟨hp1, hp2, hp3, hp4, hp5, hp6, hp7⟩ := run_nonResult R es hes
  rcases hrun : run R es with ⟨p2, sA2, eA2, sT2, eT2, rec2, bu2, ga2, se2⟩
  rw [hrun] at hp1 hp2 hp3 hp5 hp6 hp7
  dsimp only at hp1 hp2 hp3 hp5 hp6 hp7
  subst hp1 hp2 hp3 hp5 hp6 hp7
  rw [step_expiryFires_eq _ one_ne_zero]
  rw [clearPending_eq]
  exact ⟨rfl, rfl, rfl, rfl, rfl, rfl⟩

/-- Witness for C5: submit, one coalesced mutation, one result-free
scan, then expiry: idle again and nothing sent. -/
theorem claim_c5_witness :
    (step (run (step CS.init (.submitClick quietPage "t0"))
        [Event.mutation, Event.scanFires quietPage]) .expiryFires).pending = none
    ∧ (step (run (step CS.init (.submitClick quietPage "t0"))
        [Event.mutation, Event.scanFires quietPage]) .expiryFires).sent = CS.init.sent
    ∧ (step (run (step CS.init (.submitClick quietPage "t0"))
        [Event.mutation, Event.scanFires quietPage]) .expiryFires).built = CS.init.built := by
  have hes : ∀ e ∈ [Event.mutation, Event.scanFires quietPage], NonResult e := by
    intro e he
    simp at he
    rcases he with h | h <;> subst h
    · trivial
    · show getResultState quietPage = none
      decide
  have h := claim_c5 CS.init quietPage "t0" [Event.mutation, Event.scanFires quietPage]
    inv_init hes
  exact ⟨h.1, h.2.2.2.2.2, h.2.2.2.1⟩

/-- Claim C6: along every event sequence from the initial state, at
most one scan timer and at most one expiry timer are outstanding, and a
mutation notification while a scan is already scheduled arms no new
timer (the step is a no-op, so mutations within the debounce window
coalesce). -/
theorem claim_c6 (es : List Event) :
    (run CS.init es).scanTimers ≤ 1
    ∧ (run CS.init es).expiryTimers ≤ 1
    ∧ ((run CS.init es).scanArmed = true →
        step (run CS.init es) .mutation = run CS.init es) := by
  obtain ⟨h1, h2⟩ := inv_run CS.init es inv_init
  refine ⟨?_, ?_, ?_⟩
  · rw [h1]
    split <;> omega
  · rw [h2]
    split <;> omega
  · intro hA
    show scheduleResultScan _ = _
    unfold scheduleResultScan
    rw [hA, Bool.or_true]
    rfl

/-- Witness for C6: after a submit-click a scan is armed and a further
mutation changes nothing. -/
theorem claim_c6_witness :
    (run CS.init [Event.submitClick quietPage "t0"]).scanTimers ≤ 1
    ∧ step (run CS.init [Event.submitClick quietPage "t0"]) .mutation
      = run CS.init [Event.submitClick quietPage "t0"] := by
  have h := claim_c6 [Event.submitClick quietPage "t0"]
  exact ⟨h.1, h.2.2 (by decide)⟩

/-- Claim C8: a second submit-click while a first submission is pending
overwrites the pending slot with the new snapshot and restarts the
expiry timer, building and sending nothing, and a subsequent
wrong-marker scan builds its payload from the second snapshot only —
the first snapshot is discarded. -/
theorem claim_c8 (s : CS) (pg2 pgW : Page) (t2 : String) (p1 : PendingSubmission)
    (hInv : Inv s) (_hp : s.pending = some p1)
    (hW : getResultState pgW = some ResultState.wrong) :
    (step s (.submitClick pg2 t2)).pending = some (snapshotOf pg2 t2)
    ∧ (step s (.submitClick pg2 t2)).expiryArmed = true
    ∧ (step s (.submitClick pg2 t2)).expiryTimers = 1
    ∧ (step s (.submitClick pg2 t2)).built = s.built
    ∧ (step s (.submitClick pg2 t2)).gated = s.gated
    ∧ (step s (.submitClick pg2 t2)).sent = s.sent
    ∧ (step (step s (.submitClick pg2 t2)) (.scanFires pgW)).built
        = s.built ++ [buildPayload pgW (snapshotOf pg2 t2)]
    ∧ (step (step s (.submitClick pg2 t2)) (.scanFires pgW)).gated
        = s.gated ++ [buildPayload pgW (snapshotOf pg2 t2)] := by
  have hsub := handleSubmitClick_eq pg2 t2 s hInv
  rw [hsub]
  set R : CS :=
    { pending := some (snapshotOf pg2 t2)
      scanArmed := true
      expiryArmed := true
      scanTimers := 1
      expiryTimers := 1
      recent := s.recent
      built := s.built
      gated := s.gated
      sent := s.sent } with hRdef
  have hstep := step_scanFires_eq pgW R one_ne_zero
  rw [hstep]
  rw [checkForResult_wrong_eq pgW
    { R with scanTimers := R.scanTimers - 1, scanArmed := false }
    (snapshotOf pg2 t2) rfl hW]
  exact ⟨rfl, rfl, rfl, rfl, rfl, rfl, rfl, rfl⟩

/-- Witness for C8: with a first submission pending, a second submit
overwrites the slot and a wrong scan logs the second snapshot. -/
theorem claim_c8_witness :
    (step (step CS.init (.submitClick quietPage "t0")) (.submitClick wrongPage "t1")).pending
      = some (snapshotOf wrongPage "t1")
    ∧ (step (step (step CS.init (.submitClick quietPage "t0")) (.submitClick wrongPage "t1"))
        (.scanFires wrongPage)).built
      = (step CS.init (.submitClick quietPage "t0")).built
        ++ [buildPayload wrongPage (snapshotOf wrongPage "t1")] := by
  have h := claim_c8 (step CS.init (.submitClick quietPage "t0")) wrongPage wrongPage "t1"
    (snapshotOf quietPage "t0") (by decide) (by decide) (by decide)
  exact ⟨h.1, h.2.2.2.2.2.2.1⟩
